import Mathlib

/-!
# Verification of the MoonUnit test runner (`src/src/Runner.cpp`)

Shallow embedding of the MoonUnit test-discovery-and-execution engine.
Pure data and algorithms are translated from `Runner.cpp`; parts whose
behaviour is delivered by the external Lua interpreter library (string
rendering of values, the shape of `luaL_traceback` output, the error /
`longjmp` control flow produced by `luaL_error` and caught by `lua_pcall`)
are modelled explicitly and noted at their definitions.

Lua numbers are modelled as integers plus the floating-point NaN
value.  Finite floats compare — for equality and order — reflexively
through the same primitive paths as integers, so the model does not
distinguish them from integer numbers; NaN, the one Lua value that is
not equal to itself under `lua_compare(..., LUA_OPEQ)`, is kept as its
own value, because the deep comparator genuinely behaves differently on
it (reflexivity fails there).
-/

namespace MoonUnit

/-- Scalar Lua values usable as table keys, as captured by
`JsonValueFromLuaValue` (`Runner.cpp:236`): booleans, integers and
strings.  On any other key type (tables, functions) the key enumeration
raises a Lua error through `JsonValueFromLuaValue`, so a comparison
over such a table never completes at all; tables representable in this
model are the scalar-keyed ones on which the comparator runs to an
answer. -/
inductive LKey where
  | boolK (b : Bool)
  | intK (n : Int)
  | strK (s : String)
deriving DecidableEq

/-- Lua values as seen by the runner: nil, booleans, integer numbers,
strings, tables, and the floating-point NaN value.  A table is modelled
as an association list from keys to values (`lua_next` enumeration plus
`lua_gettable` lookup).  `nan` is the one number whose primitive
equality is not reflexive; finite floats are not distinguished from
integers (see the preamble). -/
inductive LuaValue where
  | nil
  | boolean (b : Bool)
  | int (n : Int)
  | str (s : String)
  | table (entries : List (LKey × LuaValue))
  | nan

/-- Generic association-list lookup (models `std::unordered_map::find`
and `lua_gettable` on our list representation of maps/tables). -/
def lookupA {α β : Type} [DecidableEq α] : List (α × β) → α → Option β
  | [], _ => none
  | (k', v) :: rest, k => if k = k' then some v else lookupA rest k

/-- Generic association-list overwrite-or-append (models
`std::unordered_map::operator[]` assignment and Lua `rawset`). -/
def setA {α β : Type} [DecidableEq α] : List (α × β) → α → β → List (α × β)
  | [], k, v => [(k, v)]
  | (k', v') :: rest, k, v =>
    if k = k' then (k, v) :: rest else (k', v') :: setA rest k v

/-- Table lookup: the value stored under a key, if any. -/
def lookupEntries : List (LKey × LuaValue) → LKey → Option LuaValue
  | [], _ => none
  | (k', v) :: rest, k => if k = k' then some v else lookupEntries rest k

/-- The enumerated key set of a table, as produced by `EnumerateKeys`
(`Runner.cpp:278`): each key once.  The C++ stores the keys in a
`std::set< Json::Value >` ordered by the external Json library's
comparison; we fix a concrete duplicate-free enumeration (`List.dedup`
of the entry keys).  No claim below depends on the particular order. -/
def keysOf (entries : List (LKey × LuaValue)) : List LKey :=
  (entries.map Prod.fst).dedup

/-- Rendering of a key for mismatch messages, modelling
`Json::Value::ToEncoding` on scalar keys (strings are JSON-quoted). -/
def keyEncode : LKey → String
  | .boolK true => "true"
  | .boolK false => "false"
  | .intK n => toString n
  | .strK s => "\"" ++ s ++ "\""

/-- `lua_compare(..., LUA_OPEQ)` on the values the comparator feeds it,
i.e. primitive (metatable-free) Lua equality.  Two distinct table
objects compare by reference, hence `false` here (the comparator only
reaches this function when the two values are not both tables), and NaN
is equal to nothing, itself included (IEEE), hence the catch-all. -/
def luaRawEq : LuaValue → LuaValue → Bool
  | .nil, .nil => true
  | .boolean a, .boolean b => a == b
  | .int a, .int b => a == b
  | .str a, .str b => a == b
  | _, _ => false

/-- Modelled from the spec: `lua_tostring` (no metamethods) converts
numbers and strings only; on nil, booleans and tables it yields NULL,
which `sprintf` renders as "(null)".  This rendering lives in the
external interpreter/libc, not in `src/`. -/
def luaToString : LuaValue → String
  | .int n => toString n
  | .str s => s
  | .nan => "nan"
  | _ => "(null)"

/-- `StringExtensions::sprintf("Actual value missing key '%s'", key)`
(`Runner.cpp:329`). -/
def missingKeyMsg (k : LKey) : String :=
  "Actual value missing key '" ++ keyEncode k ++ "'"

/-- `StringExtensions::sprintf("Actual value has extra key '%s'", key)`
(`Runner.cpp:378`). -/
def extraKeyMsg (k : LKey) : String :=
  "Actual value has extra key '" ++ keyEncode k ++ "'"

/-- `StringExtensions::sprintf("Expected '%s', actual was '%s'\n", lhs, rhs)`
(`Runner.cpp:362`). -/
def scalarMismatchMsg (lv rv : LuaValue) : String :=
  "Expected '" ++ luaToString lv ++ "', actual was '" ++ luaToString rv ++ "'\n"

/-- `lua_istable`. -/
def isTable : LuaValue → Bool
  | .table _ => true
  | _ => false

/-- The entries of a table value (`[]` on non-tables, never used on
those). -/
def tableEntries : LuaValue → List (LKey × LuaValue)
  | .table es => es
  | _ => []

mutual

/-- Does the value contain no floating-point NaN anywhere inside? -/
def nanFree : LuaValue → Bool
  | .nan => false
  | .table es => nanFreeL es
  | _ => true

/-- Does the table body contain no NaN anywhere inside? -/
def nanFreeL : List (LKey × LuaValue) → Bool
  | [] => true
  | e :: rest => nanFree e.2 && nanFreeL rest

end

/-- An element of a table is smaller than the whole table. -/
theorem sizeOf_lookupEntries_lt {entries : List (LKey × LuaValue)} {k : LKey}
    {v : LuaValue} (h : lookupEntries entries k = some v) :
    sizeOf v < sizeOf entries := by
  induction entries with
  | nil => simp [lookupEntries] at h
  | cons e rest ih =>
    obtain ⟨k', v'⟩ := e
    by_cases hk : k = k'
    · simp [lookupEntries, hk] at h
      subst h
      simp
      omega
    · simp [lookupEntries, hk] at h
      have := ih h
      simp
      omega

/-- The entries of a table fetched out of a parent table are smaller
than the parent. -/
theorem sizeOf_tableEntries_lt {entries : List (LKey × LuaValue)} {k : LKey}
    (h : isTable ((lookupEntries entries k).getD .nil) = true) :
    sizeOf (tableEntries ((lookupEntries entries k).getD .nil))
      < sizeOf entries := by
  cases hl : lookupEntries entries k with
  | none => rw [hl] at h; simp [isTable] at h
  | some v =>
    cases v with
    | table es =>
      have hlt := sizeOf_lookupEntries_lt hl
      simp only [Option.getD_some, tableEntries]
      simp at hlt
      omega
    | nil => rw [hl] at h; simp [isTable] at h
    | boolean b => rw [hl] at h; simp [isTable] at h
    | int n => rw [hl] at h; simp [isTable] at h
    | str s => rw [hl] at h; simp [isTable] at h
    | nan => rw [hl] at h; simp [isTable] at h

/-- The key-by-key loop of `CompareLuaTables` (`Runner.cpp:312`): walk
the enumerated lhs keys (`pending`), with `S` the not-yet-matched rhs
keys (the mutable `rhsKeys` set) and `kc` the key chain.  Returns the
comparison-result string (empty = no difference) together with the
final key chain, exactly as the C++ leaves the by-reference
`keyChain`. -/
def cmpLoop (lhs rhs : List (LKey × LuaValue)) (pending S kc : List LKey) :
    String × List LKey :=
  match pending with
  | [] =>
    match S with
    | [] => ("", kc)
    | j :: _ => (extraKeyMsg j, kc)
  | k :: rest =>
    if k ∈ S then
      if h1 : isTable ((lookupEntries lhs k).getD .nil)
          && isTable ((lookupEntries rhs k).getD .nil) then
        let lt := tableEntries ((lookupEntries lhs k).getD .nil)
        let rt := tableEntries ((lookupEntries rhs k).getD .nil)
        let res := cmpLoop lt rt (keysOf lt) (keysOf rt) (kc ++ [k])
        if res.1 = "" then cmpLoop lhs rhs rest (S.erase k) res.2.dropLast
        else res
      else
        if luaRawEq ((lookupEntries lhs k).getD .nil)
            ((lookupEntries rhs k).getD .nil) then
          cmpLoop lhs rhs rest (S.erase k) kc
        else (scalarMismatchMsg ((lookupEntries lhs k).getD .nil)
          ((lookupEntries rhs k).getD .nil), kc ++ [k])
    else (missingKeyMsg k, kc)
termination_by (sizeOf lhs, pending.length)
decreasing_by
  · have h := (Bool.and_eq_true _ _).mp h1
    exact Prod.Lex.left _ _ (sizeOf_tableEntries_lt h.1)
  · exact Prod.Lex.right _ (by simp)
  · exact Prod.Lex.right _ (by simp)

/-- `CompareLuaTables` (`Runner.cpp:312`): deep comparison of two Lua
tables, returning the mismatch description (empty string when the
tables are identical) and the final key chain. -/
def compareLuaTables (lhs rhs : List (LKey × LuaValue)) (kc : List LKey) :
    String × List LKey :=
  cmpLoop lhs rhs (keysOf lhs) (keysOf rhs) kc

/-- One key of `lhs` matches in `rhs`: mirrors the per-key success
condition of the `CompareLuaTables` loop body — both values tables with
an empty deep-comparison result, or not both tables and primitively
equal. -/
def entryMatches (lhs rhs : List (LKey × LuaValue)) (k : LKey) : Bool :=
  if isTable ((lookupEntries lhs k).getD .nil)
      && isTable ((lookupEntries rhs k).getD .nil) then
    (compareLuaTables (tableEntries ((lookupEntries lhs k).getD .nil))
      (tableEntries ((lookupEntries rhs k).getD .nil)) []).1 == ""
  else
    luaRawEq ((lookupEntries lhs k).getD .nil)
      ((lookupEntries rhs k).getD .nil)

/-- `luaL_typename` of a value. -/
def luaTypename : LuaValue → String
  | .nil => "nil"
  | .boolean _ => "boolean"
  | .int _ => "number"
  | .str _ => "string"
  | .table _ => "table"
  | .nan => "number"

/-- `lua_toboolean`: everything is truthy except nil and false. -/
def luaTruthy : LuaValue → Bool
  | .nil => false
  | .boolean b => b
  | _ => true

/-- Modelled from the spec: `luaL_tolstring`, the interpreter's own
native-to-string conversion used in the true/false diagnostics; it
renders every value (tables by address, modelled by a placeholder). -/
def luaToDisplay : LuaValue → String
  | .nil => "nil"
  | .boolean true => "true"
  | .boolean false => "false"
  | .int n => toString n
  | .str s => s
  | .table _ => "table: 0x0"
  | .nan => "nan"

/-- Modelled from the spec: `lua_compare(..., LUA_OPLT)`, the host
ordering used by the lt/le/gt/ge operations — numbers with numbers,
strings with strings, anything else has no order (`none`, on which the
interpreter raises a runtime error). -/
def luaLt : LuaValue → LuaValue → Option Bool
  | .int a, .int b => some (decide (a < b))
  | .str a, .str b => some (decide (a < b))
  | .nan, .int _ => some false
  | .int _, .nan => some false
  | .nan, .nan => some false
  | _, _ => none

/-- Modelled from the spec: `lua_compare(..., LUA_OPLE)`. -/
def luaLe : LuaValue → LuaValue → Option Bool
  | .int a, .int b => some (decide (a ≤ b))
  | .str a, .str b => some (decide (¬ b < a))
  | .nan, .int _ => some false
  | .int _, .nan => some false
  | .nan, .nan => some false
  | _, _ => none

/-- `StringExtensions::Join(keyChainAsStrings, ".")` applied to the
`ToEncoding` of each key chain element (`Runner.cpp:643`). -/
def joinKeys (kc : List LKey) : String :=
  String.intercalate "." (kc.map keyEncode)

/-- `"Tables differ (path: %s) -- %s\n"` (`Runner.cpp:649` and 867). -/
def tablesDifferMsg (c : String × List LKey) : String :=
  "Tables differ (path: " ++ joinKeys c.2 ++ ") -- " ++ c.1 ++ "\n"

/-- `"Tables should differ but are the same\n"` (`Runner.cpp:802`, 1087). -/
def tablesSameMsg : String :=
  "Tables should differ but are the same\n"

/-- `"Expected '%s' (%s), actual was '%s' (%s)\n"` — the `expect_eq`
scalar-mismatch diagnostic with type names (`Runner.cpp:877`). -/
def expectEqMsg (l r : LuaValue) : String :=
  "Expected '" ++ luaToString l ++ "' (" ++ luaTypename l ++ "), actual was '"
    ++ luaToString r ++ "' (" ++ luaTypename r ++ ")\n"

/-- `"Expected not '%s', actual was '%s'\n"` (`Runner.cpp:808`, 1095). -/
def neMsg (l r : LuaValue) : String :=
  "Expected not '" ++ luaToString l ++ "', actual was '" ++ luaToString r ++ "'\n"

/-- `"Expected '%s' to be true\n"` (`Runner.cpp:833`, 1130). -/
def trueMsg (v : LuaValue) : String :=
  "Expected '" ++ luaToDisplay v ++ "' to be true\n"

/-- `"Expected '%s' to be false\n"` (`Runner.cpp:682`, 917). -/
def falseMsg (v : LuaValue) : String :=
  "Expected '" ++ luaToDisplay v ++ "' to be false\n"

/-- `"expected '%s' OP '%s'\n"` for the four ordering operations. -/
def ordMsg (op : String) (l r : LuaValue) : String :=
  "expected '" ++ luaToString l ++ "' " ++ op ++ " '" ++ luaToString r ++ "'\n"

/-- Modelled from the spec: the captured stack trace appended by the
failing `expect_*` operations — `sprintf("%s\n", luaL_traceback(NULL))`,
whose content comes from the external interpreter. -/
def tbDiag : String :=
  "stack traceback:\n"

/-- Modelled from the spec: the runtime-error message the interpreter
raises when `lua_compare` is applied to unordered operands. -/
def compareErrMsg : String :=
  "attempt to compare incomparable values"

/-- Expressions a modelled test body can hand to the moonunit API:
literal values and reads of interpreter globals (an absent global reads
as nil, per Lua semantics). -/
inductive LuaExpr where
  | const (v : LuaValue)
  | global (x : String)

/-- Lua global environment of one interpreter instance. -/
abbrev Globals := List (String × LuaValue)

/-- Evaluate an expression against the globals of the current
interpreter instance. -/
def evalExpr (g : Globals) : LuaExpr → LuaValue
  | .const v => v
  | .global x => (lookupA g x).getD .nil

/-- Modelled from the spec: a statement of a Lua test body.  The Lua
interpreter executing arbitrary script text is external to `src/`; we
model a body as a sequence of moonunit-API calls (`Runner.cpp:634`-1144)
plus global-variable writes (the script-visible mutable state used by
the isolation claims). -/
inductive LuaStep where
  | setGlobal (x : String) (e : LuaExpr)
  | assertEq (a b : LuaExpr)
  | assertNe (a b : LuaExpr)
  | assertTrue (e : LuaExpr)
  | assertFalse (e : LuaExpr)
  | assertLt (a b : LuaExpr)
  | assertLe (a b : LuaExpr)
  | assertGt (a b : LuaExpr)
  | assertGe (a b : LuaExpr)
  | expectEq (a b : LuaExpr)
  | expectNe (a b : LuaExpr)
  | expectTrue (e : LuaExpr)
  | expectFalse (e : LuaExpr)
  | expectLt (a b : LuaExpr)
  | expectLe (a b : LuaExpr)
  | expectGt (a b : LuaExpr)
  | expectGe (a b : LuaExpr)

/-- The observable state of one test execution: the interpreter's
globals, the `currentTestFailed` flag of `Runner::Impl`, and the
messages delivered so far to the error message delegate. -/
structure TestState where
  globals : Globals
  failed : Bool
  diags : List String

/-- Result of one API call: normal return (`.ok`), or a raised Lua
error (`luaL_error` → non-local exit to the enclosing `lua_pcall`). -/
inductive StepResult where
  | ok (st : TestState)
  | err (st : TestState) (msg : String)

/-- The state carried by a step result. -/
def stepState : StepResult → TestState
  | .ok st => st
  | .err st _ => st

/-- The raised error of a step result, if any. -/
def stepErr : StepResult → Option String
  | .ok _ => none
  | .err _ m => some m

/-- One moonunit API call, translated from the corresponding
`Runner::Impl::Lua*` function.  `assert_*` raise (`luaL_error`) and
leave the runner state untouched; `expect_*` set `currentTestFailed`,
deliver their diagnostic (and, except for the `expect_ne` table branch,
a captured traceback) and return normally. -/
def runStep (st : TestState) : LuaStep → StepResult
  | .setGlobal x e =>
    .ok { st with globals := setA st.globals x (evalExpr st.globals e) }
  | .assertEq a b =>
    let l := evalExpr st.globals a
    let r := evalExpr st.globals b
    if isTable l && isTable r then
      let c := compareLuaTables (tableEntries l) (tableEntries r) []
      if c.1 = "" then .ok st else .err st (tablesDifferMsg c)
    else
      if luaRawEq l r then .ok st else .err st (scalarMismatchMsg l r)
  | .assertNe a b =>
    let l := evalExpr st.globals a
    let r := evalExpr st.globals b
    if isTable l && isTable r then
      let c := compareLuaTables (tableEntries l) (tableEntries r) []
      if c.1 = "" then .err st tablesSameMsg else .ok st
    else
      if luaRawEq l r then .err st (neMsg l r) else .ok st
  | .assertTrue e =>
    let v := evalExpr st.globals e
    if luaTruthy v then .ok st else .err st (trueMsg v)
  | .assertFalse e =>
    let v := evalExpr st.globals e
    if luaTruthy v then .err st (falseMsg v) else .ok st
  | .assertLt a b =>
    let l := evalExpr st.globals a
    let r := evalExpr st.globals b
    match luaLt l r with
    | none => .err st compareErrMsg
    | some true => .ok st
    | some false => .err st (ordMsg "<" l r)
  | .assertLe a b =>
    let l := evalExpr st.globals a
    let r := evalExpr st.globals b
    match luaLe l r with
    | none => .err st compareErrMsg
    | some true => .ok st
    | some false => .err st (ordMsg "<=" l r)
  | .assertGt a b =>
    let l := evalExpr st.globals a
    let r := evalExpr st.globals b
    match luaLe l r with
    | none => .err st compareErrMsg
    | some true => .err st (ordMsg ">" l r)
    | some false => .ok st
  | .assertGe a b =>
    let l := evalExpr st.globals a
    let r := evalExpr st.globals b
    match luaLt l r with
    | none => .err st compareErrMsg
    | some true => .err st (ordMsg ">=" l r)
    | some false => .ok st
  | .expectEq a b =>
    let l := evalExpr st.globals a
    let r := evalExpr st.globals b
    if isTable l && isTable r then
      let c := compareLuaTables (tableEntries l) (tableEntries r) []
      if c.1 = "" then .ok st
      else .ok { st with failed := true,
                         diags := st.diags ++ [tablesDifferMsg c, tbDiag] }
    else
      if luaRawEq l r then .ok st
      else .ok { st with failed := true,
                         diags := st.diags ++ [expectEqMsg l r, tbDiag] }
  | .expectNe a b =>
    let l := evalExpr st.globals a
    let r := evalExpr st.globals b
    if isTable l && isTable r then
      let c := compareLuaTables (tableEntries l) (tableEntries r) []
      if c.1 = "" then
        .ok { st with failed := true, diags := st.diags ++ [tablesSameMsg] }
      else .ok st
    else
      if luaRawEq l r then
        .ok { st with failed := true, diags := st.diags ++ [neMsg l r, tbDiag] }
      else .ok st
  | .expectTrue e =>
    let v := evalExpr st.globals e
    if luaTruthy v then .ok st
    else .ok { st with failed := true, diags := st.diags ++ [trueMsg v, tbDiag] }
  | .expectFalse e =>
    let v := evalExpr st.globals e
    if luaTruthy v then
      .ok { st with failed := true, diags := st.diags ++ [falseMsg v, tbDiag] }
    else .ok st
  | .expectLt a b =>
    let l := evalExpr st.globals a
    let r := evalExpr st.globals b
    match luaLt l r with
    | none => .err st compareErrMsg
    | some true => .ok st
    | some false =>
      .ok { st with failed := true,
                    diags := st.diags ++ [ordMsg "<" l r, tbDiag] }
  | .expectLe a b =>
    let l := evalExpr st.globals a
    let r := evalExpr st.globals b
    match luaLe l r with
    | none => .err st compareErrMsg
    | some true => .ok st
    | some false =>
      .ok { st with failed := true,
                    diags := st.diags ++ [ordMsg "<=" l r, tbDiag] }
  | .expectGt a b =>
    let l := evalExpr st.globals a
    let r := evalExpr st.globals b
    match luaLe l r with
    | none => .err st compareErrMsg
    | some true =>
      .ok { st with failed := true,
                    diags := st.diags ++ [ordMsg ">" l r, tbDiag] }
    | some false => .ok st
  | .expectGe a b =>
    let l := evalExpr st.globals a
    let r := evalExpr st.globals b
    match luaLt l r with
    | none => .err st compareErrMsg
    | some true =>
      .ok { st with failed := true,
                    diags := st.diags ++ [ordMsg ">=" l r, tbDiag] }
    | some false => .ok st

/-- Is the step one of the eight `expect_*` operations? -/
def isExpect : LuaStep → Bool
  | .expectEq _ _ | .expectNe _ _ | .expectTrue _ | .expectFalse _
  | .expectLt _ _ | .expectLe _ _ | .expectGt _ _ | .expectGe _ _ => true
  | _ => false

/-- Is the step one of the eight `assert_*` operations? -/
def isAssert : LuaStep → Bool
  | .assertEq _ _ | .assertNe _ _ | .assertTrue _ | .assertFalse _
  | .assertLt _ _ | .assertLe _ _ | .assertGt _ _ | .assertGe _ _ => true
  | _ => false

/-- Does the expectation checked by this step fail (evaluate to a
falsified condition, with orderable operands where order is used)?
Mirrors the failure condition of each `Lua*` function. -/
def checkFails (g : Globals) : LuaStep → Bool
  | .assertEq a b | .expectEq a b =>
    if isTable (evalExpr g a) && isTable (evalExpr g b) then
      (compareLuaTables (tableEntries (evalExpr g a))
        (tableEntries (evalExpr g b)) []).1 != ""
    else ! luaRawEq (evalExpr g a) (evalExpr g b)
  | .assertNe a b | .expectNe a b =>
    if isTable (evalExpr g a) && isTable (evalExpr g b) then
      (compareLuaTables (tableEntries (evalExpr g a))
        (tableEntries (evalExpr g b)) []).1 == ""
    else luaRawEq (evalExpr g a) (evalExpr g b)
  | .assertTrue e | .expectTrue e => ! luaTruthy (evalExpr g e)
  | .assertFalse e | .expectFalse e => luaTruthy (evalExpr g e)
  | .assertLt a b | .expectLt a b =>
    luaLt (evalExpr g a) (evalExpr g b) == some false
  | .assertLe a b | .expectLe a b =>
    luaLe (evalExpr g a) (evalExpr g b) == some false
  | .assertGt a b | .expectGt a b =>
    luaLe (evalExpr g a) (evalExpr g b) == some true
  | .assertGe a b | .expectGe a b =>
    luaLt (evalExpr g a) (evalExpr g b) == some true
  | .setGlobal _ _ => false

/-- Run a test body statement by statement; a raised error aborts the
remainder (the `longjmp` to the protecting `lua_pcall`). -/
def runBody (st : TestState) : List LuaStep → TestState × Option String
  | [] => (st, none)
  | s :: rest =>
    match runStep st s with
    | .ok st' => runBody st' rest
    | .err st' m => (st', some m)

/-- The fresh state a test body starts from: a brand-new interpreter
(`lua_newstate` in `WithLua`, so no globals), `currentTestFailed` reset
to false (`Runner.cpp:1423`), and no diagnostics delivered yet. -/
def initTestState : TestState :=
  ⟨[], false, []⟩

/-- Modelled from the spec: `luaL_traceback(message)` as applied by the
`LuaTraceback` message handler — the message followed by the (external)
stack trace text. -/
def tracebackOf (m : String) : String :=
  m ++ "\nstack traceback:"

/-- Execute one test body under the `lua_pcall` boundary of
`Runner::RunTest` (`Runner.cpp:1424`-1453): a raised error is converted
into an `"ERROR: ...\n"` diagnostic and marks the test failed; the
returned Bool is `!currentTestFailed`. -/
def execBody (body : List LuaStep) : Bool × List String :=
  match runBody initTestState body with
  | (st, none) => (! st.failed, st.diags)
  | (st, some m) => (false, st.diags ++ ["ERROR: " ++ tracebackOf m ++ "\n"])

/-- The `Test` record of the catalog (`Runner.cpp:41`): script text,
script path, and the line where the test function was defined. -/
structure Test where
  file : String
  filePath : String
  lineNumber : Nat

/-- The runner's catalog (`TestSuites`, `Runner.cpp:75`): suites by
name, each a map from test name to `Test`. -/
abbrev Catalog := List (String × List (String × Test))

/-- A test as needed to execute it.  Modelled from the spec: executing
the stored script text is the external interpreter's job; we keep the
script's path, whether reloading it succeeds (`WithScript`'s error
result), and the registered body as modelled API calls. -/
structure ExecTest where
  filePath : String
  loadError : Option String
  body : List LuaStep

/-- The catalog as visible to `RunTest`, with executable bodies. -/
abbrev ExecCatalog := List (String × List (String × ExecTest))

/-- `Runner::RunTest` (`Runner.cpp:1395`): look up the suite and the
test (reporting a not-found error and failing when absent, before
touching any state), then run the body in a fresh interpreter.  `rs` is
the persistent `Impl::currentTestFailed` flag, threaded to expose what
state survives between calls; the globals do not (each call runs
`WithLua` → `lua_newstate`). -/
def runTestSt (rs : Bool) (cat : ExecCatalog) (s t : String) :
    (Bool × List String) × Bool :=
  match lookupA cat s with
  | none => ((false, ["ERROR: No test suite '" ++ s ++ "' found"]), rs)
  | some suite =>
    match lookupA suite t with
    | none =>
      ((false, ["ERROR: No test '" ++ t ++ "' found in test suite '"
          ++ s ++ "'"]), rs)
    | some test =>
      match test.loadError with
      | some m =>
        ((false, ["ERROR: Unable to load Lua script file '"
            ++ test.filePath ++ "': " ++ m]), true)
      | none =>
        match runBody initTestState test.body with
        | (st, none) => ((! st.failed, st.diags), st.failed)
        | (st, some m) =>
          ((false, st.diags ++ ["ERROR: " ++ tracebackOf m ++ "\n"]), true)

/-- `Runner::GetTestNames` (`Runner.cpp:1374`): the names of the tests
of one suite, `[]` when the suite is unknown (`find`, which never
inserts).  The catalog is returned alongside to make the const-ness of
the query explicit. -/
def getTestNames (cat : Catalog) (s : String) : List String × Catalog :=
  match lookupA cat s with
  | none => ([], cat)
  | some suite => (suite.map Prod.fst, cat)

/-- One `<testcase .../>` element of the report. -/
structure TestCaseR where
  name : String
  filePath : String
  lineNumber : Nat

/-- One `<testsuite ...>` element: name, the `tests` count attribute,
and the contained testcase elements. -/
structure TestSuiteR where
  name : String
  tests : Nat
  cases : List TestCaseR

/-- The `<testsuites ...>` root: the total `tests` attribute and the
suite elements. -/
structure ReportR where
  tests : Nat
  suites : List TestSuiteR

/-- `Runner::GetReport` (`Runner.cpp:1348`), as the structure of the
emitted XML: the total count is the summed suite sizes, each suite
element carries its map's size and one testcase element per test. -/
def getReport (cat : Catalog) : ReportR :=
  { tests := (cat.map (fun su => su.2.length)).sum
    suites := cat.map fun su =>
      { name := su.1
        tests := su.2.length
        cases := su.2.map fun t =>
          { name := t.1
            filePath := t.2.filePath
            lineNumber := t.2.lineNumber } } }

/-- The XML text `Runner::GetReport` builds, rendered from the report
structure exactly as the C++ streams it. -/
def renderReport (r : ReportR) : String :=
  "<?xml version=\"1.0\" encoding=\"UTF-8\"?>\n"
    ++ "<testsuites tests=\"" ++ toString r.tests ++ "\" name=\"AllTests\">\n"
    ++ String.join (r.suites.map fun su =>
        "  <testsuite name=\"" ++ su.name ++ "\" tests=\""
          ++ toString su.tests ++ "\">\n"
          ++ String.join (su.cases.map fun tc =>
              "    <testcase name=\"" ++ tc.name ++ "\" file=\""
                ++ tc.filePath ++ "\" line=\"" ++ toString tc.lineNumber
                ++ "\" />\n")
          ++ "  </testsuite>\n")
    ++ "</testsuites>\n"

/-- The full `GetReport` string. -/
def getReportString (cat : Catalog) : String :=
  renderReport (getReport cat)

/-- One `moonunit.test(suite, test, body)` call, reduced to what the
discovery walk later extracts from the stored function: suite name,
test name, and the definition line of the function (`linedefined`). -/
abbrev RegEvent := String × String × Nat

/-- The per-session registry (`luaRegistryIndex` table): suite name →
(test name → definition line of the registered function). -/
abbrev Registry := List (String × List (String × Nat))

/-- Overwrite-or-create in a two-level map: fetch the inner map of
`k1` (creating it when absent) and overwrite the `k2` slot.  This is
the common shape of `LuaTest` on the Lua registry table and of the
`FindTests` store into `testSuites`. -/
def set2 {β : Type} (m : List (String × List (String × β)))
    (k1 k2 : String) (v : β) : List (String × List (String × β)) :=
  setA m k1 (setA ((lookupA m k1).getD []) k2 v)

/-- Two-level lookup in a two-level map (an absent outer key reads as
an empty inner map). -/
def lookup2 {β : Type} (m : List (String × List (String × β)))
    (s t : String) : Option β :=
  lookupA ((lookupA m s).getD []) t

/-- Well-formedness of a two-level map: no duplicate outer keys, no
duplicate inner keys. -/
def MapWF {β : Type} (m : List (String × List (String × β))) : Prop :=
  (m.map Prod.fst).Nodup ∧ ∀ su ∈ m, (su.2.map Prod.fst).Nodup

/-- `Runner::Impl::LuaTest` (`Runner.cpp:1156`): fetch the table of
the suite (creating it when absent) and `rawset` the test name to the
given function — Lua `rawset` overwrites any previous entry. -/
def insertReg (reg : Registry) (e : RegEvent) : Registry :=
  set2 reg e.1 e.2.1 e.2.2

/-- The registry produced by executing the registration calls of one
script in order. -/
def runDiscovery (events : List RegEvent) : Registry :=
  events.foldl insertReg []

/-- The suite/test pairs the `FindTests` double loop visits, in walk
order. -/
def regEntries (reg : Registry) : List RegEvent :=
  reg.flatMap (fun su => su.2.map (fun t => (su.1, t.1, t.2)))

/-- One `testSuite.tests[testName] = test` assignment of `FindTests`
(with the enclosing `testSuites[testSuiteName]` access). -/
def catInsert (cat : Catalog) (s t : String) (v : Test) : Catalog :=
  set2 cat s t v

/-- `Runner::Impl::FindTests` (`Runner.cpp:470`): walk the registry and
store a `Test` record per registered test into the catalog. -/
def findTests (cat : Catalog) (reg : Registry) (file filePath : String) :
    Catalog :=
  (regEntries reg).foldl
    (fun c e => catInsert c e.1 e.2.1 ⟨file, filePath, e.2.2⟩) cat

/-- Two-level lookup in the catalog. -/
def lookupCat (cat : Catalog) (s t : String) : Option Test :=
  lookup2 cat s t

/-- Two-level lookup in the registry. -/
def lookupReg (reg : Registry) (s t : String) : Option Nat :=
  lookup2 reg s t

/-- The line number carried by the last registration of `(s, t)` in a
registration-event sequence, if any: later events take priority. -/
def lastRegLine (s t : String) : List RegEvent → Option Nat
  | [] => none
  | e :: rest =>
    match lastRegLine s t rest with
    | some ln => some ln
    | none => if e.1 = s ∧ e.2.1 = t then some e.2.2 else none

/-- Does the character list start with the given pattern? -/
def startsWithD : List Char → List Char → Bool
  | _, [] => true
  | [], _ :: _ => false
  | c :: cs, p :: ps => c == p && startsWithD cs ps

/-- Does the character list contain the pattern as a contiguous run? -/
def containsD (pat : List Char) : List Char → Bool
  | [] => startsWithD [] pat
  | c :: rest => startsWithD (c :: rest) pat || containsD pat rest

/-- Substring test used to state the diagnostic-content scenarios. -/
def containsStr (s pat : String) : Bool :=
  containsD pat.data s.data

/-- Concrete steps used to exercise the severity claims on a small
input. -/
def c1WitnessExpectStep : LuaStep := .expectEq (.const (.int 1)) (.const (.int 2))

/-- Concrete assert step for the same small input. -/
def c1WitnessAssertStep : LuaStep := .assertEq (.const (.int 1)) (.const (.int 2))

/-- Concrete body remainder after the failing call. -/
def c1WitnessPost : List LuaStep := [.expectTrue (.const (.boolean true))]

/-! ## Generic helper lemmas -/

theorem append_ne_empty_right (p : String) {s : String} (h : s ≠ "") :
    p ++ s ≠ "" := by
  intro he
  apply h
  have hd := congrArg String.data he
  simp only [String.data_append] at hd
  have : s.data = [] := (List.append_eq_nil.mp (by simpa using hd)).2
  cases s
  simp at this
  simp [this]

theorem scalarMismatchMsg_ne_empty (lv rv : LuaValue) :
    scalarMismatchMsg lv rv ≠ "" := by
  unfold scalarMismatchMsg
  exact append_ne_empty_right _ (by decide)

theorem missingKeyMsg_ne_empty (k : LKey) : missingKeyMsg k ≠ "" := by
  unfold missingKeyMsg
  exact append_ne_empty_right _ (by decide)

theorem extraKeyMsg_ne_empty (k : LKey) : extraKeyMsg k ≠ "" := by
  unfold extraKeyMsg
  exact append_ne_empty_right _ (by decide)

theorem tablesDifferMsg_ne_empty (c : String × List LKey) :
    tablesDifferMsg c ≠ "" := by
  unfold tablesDifferMsg
  exact append_ne_empty_right _ (by decide)

/-! ## Unfolding lemmas for the comparison loop -/

theorem cmpLoop_nil_nil (lhs rhs : List (LKey × LuaValue)) (kc : List LKey) :
    cmpLoop lhs rhs [] [] kc = ("", kc) := by
  simp [cmpLoop]

theorem cmpLoop_nil_cons (lhs rhs : List (LKey × LuaValue)) (j : LKey)
    (tail kc : List LKey) :
    cmpLoop lhs rhs [] (j :: tail) kc = (extraKeyMsg j, kc) := by
  simp [cmpLoop]

theorem cmpLoop_cons_absent (lhs rhs : List (LKey × LuaValue)) (j : LKey)
    (tail S kc : List LKey) (hj : j ∉ S) :
    cmpLoop lhs rhs (j :: tail) S kc = (missingKeyMsg j, kc) := by
  simp [cmpLoop, hj]

theorem cmpLoop_cons_table (lhs rhs : List (LKey × LuaValue)) (j : LKey)
    (tail S kc : List LKey) (hj : j ∈ S)
    (hbt : (isTable ((lookupEntries lhs j).getD .nil)
      && isTable ((lookupEntries rhs j).getD .nil)) = true) :
    cmpLoop lhs rhs (j :: tail) S kc =
      (if (cmpLoop (tableEntries ((lookupEntries lhs j).getD .nil))
            (tableEntries ((lookupEntries rhs j).getD .nil))
            (keysOf (tableEntries ((lookupEntries lhs j).getD .nil)))
            (keysOf (tableEntries ((lookupEntries rhs j).getD .nil)))
            (kc ++ [j])).1 = ""
       then cmpLoop lhs rhs tail (S.erase j)
         (cmpLoop (tableEntries ((lookupEntries lhs j).getD .nil))
            (tableEntries ((lookupEntries rhs j).getD .nil))
            (keysOf (tableEntries ((lookupEntries lhs j).getD .nil)))
            (keysOf (tableEntries ((lookupEntries rhs j).getD .nil)))
            (kc ++ [j])).2.dropLast
       else cmpLoop (tableEntries ((lookupEntries lhs j).getD .nil))
            (tableEntries ((lookupEntries rhs j).getD .nil))
            (keysOf (tableEntries ((lookupEntries lhs j).getD .nil)))
            (keysOf (tableEntries ((lookupEntries rhs j).getD .nil)))
            (kc ++ [j])) := by
  simp [cmpLoop, hj, hbt]

theorem cmpLoop_cons_scalar (lhs rhs : List (LKey × LuaValue)) (j : LKey)
    (tail S kc : List LKey) (hj : j ∈ S)
    (hbt : (isTable ((lookupEntries lhs j).getD .nil)
      && isTable ((lookupEntries rhs j).getD .nil)) = false) :
    cmpLoop lhs rhs (j :: tail) S kc =
      (if luaRawEq ((lookupEntries lhs j).getD .nil)
          ((lookupEntries rhs j).getD .nil)
       then cmpLoop lhs rhs tail (S.erase j) kc
       else (scalarMismatchMsg ((lookupEntries lhs j).getD .nil)
          ((lookupEntries rhs j).getD .nil), kc ++ [j])) := by
  simp [cmpLoop, hj, hbt]

/-! ## Structural properties of the comparison loop -/

/-- If the loop reports no difference, the key chain is returned
exactly as it was received (C9's invariant at the loop level). -/
theorem cmpLoop_keyChain_frame (lhs rhs : List (LKey × LuaValue))
    (pending S kc : List LKey) :
    (cmpLoop lhs rhs pending S kc).1 = "" →
    (cmpLoop lhs rhs pending S kc).2 = kc := by
  induction lhs, rhs, pending, S, kc using cmpLoop.induct with
  | case1 lhs rhs kc =>
    simp [cmpLoop_nil_nil]
  | case2 lhs rhs kc j tail =>
    simp [cmpLoop_nil_cons]
  | case3 lhs rhs S kc j tail hj hbt lt rt res hres ih1 ih1b ih2 =>
    intro h
    rw [cmpLoop_cons_table lhs rhs j tail S kc hj hbt] at h ⊢
    have hres2 : res.1 = "" := hres
    rw [if_pos hres2] at h ⊢
    have hsnd : res.2 = kc ++ [j] := ih1 hres2
    have hd : res.2.dropLast = kc := by rw [hsnd, List.dropLast_concat]
    have h2 : (cmpLoop lhs rhs tail (S.erase j) res.2.dropLast).1 = "" := h
    have h3 := ih2 h2
    rw [hd] at h3
    show (cmpLoop lhs rhs tail (S.erase j) res.2.dropLast).2 = kc
    rw [hd]
    exact h3
  | case4 lhs rhs S kc j tail hj hbt lt rt res hres ih1 =>
    intro h
    rw [cmpLoop_cons_table lhs rhs j tail S kc hj hbt] at h
    have hres2 :
        ¬ (cmpLoop (tableEntries ((lookupEntries lhs j).getD .nil))
          (tableEntries ((lookupEntries rhs j).getD .nil))
          (keysOf (tableEntries ((lookupEntries lhs j).getD .nil)))
          (keysOf (tableEntries ((lookupEntries rhs j).getD .nil)))
          (kc ++ [j])).1 = "" := hres
    rw [if_neg hres2] at h
    exact absurd h hres2
  | case5 lhs rhs S kc j tail hj hbt hlua ih =>
    intro h
    rw [cmpLoop_cons_scalar lhs rhs j tail S kc hj
      (Bool.not_eq_true _ ▸ hbt), if_pos hlua] at h ⊢
    exact ih h
  | case6 lhs rhs S kc j tail hj hbt hlua =>
    intro h
    rw [cmpLoop_cons_scalar lhs rhs j tail S kc hj
      (Bool.not_eq_true _ ▸ hbt), if_neg hlua] at h
    exact absurd h (scalarMismatchMsg_ne_empty _ _)
  | case7 lhs rhs S kc j tail hj =>
    intro h
    rw [cmpLoop_cons_absent lhs rhs j tail S kc hj] at h
    exact absurd h (missingKeyMsg_ne_empty _)

/-- The reported difference does not depend on the incoming key
chain. -/
theorem cmpLoop_fst_kc (lhs rhs : List (LKey × LuaValue))
    (pending S kc : List LKey) :
    ∀ kc2, (cmpLoop lhs rhs pending S kc).1 =
      (cmpLoop lhs rhs pending S kc2).1 := by
  induction lhs, rhs, pending, S, kc using cmpLoop.induct with
  | case1 lhs rhs kc =>
    intro kc2
    simp [cmpLoop_nil_nil]
  | case2 lhs rhs kc j tail =>
    intro kc2
    simp [cmpLoop_nil_cons]
  | case3 lhs rhs S kc j tail hj hbt lt rt res hres ih1 ih1b ih2 =>
    intro kc2
    have hres1 :
        (cmpLoop (tableEntries ((lookupEntries lhs j).getD .nil))
          (tableEntries ((lookupEntries rhs j).getD .nil))
          (keysOf (tableEntries ((lookupEntries lhs j).getD .nil)))
          (keysOf (tableEntries ((lookupEntries rhs j).getD .nil)))
          (kc ++ [j])).1 = "" := hres
    have hres2 :
        (cmpLoop (tableEntries ((lookupEntries lhs j).getD .nil))
          (tableEntries ((lookupEntries rhs j).getD .nil))
          (keysOf (tableEntries ((lookupEntries lhs j).getD .nil)))
          (keysOf (tableEntries ((lookupEntries rhs j).getD .nil)))
          (kc2 ++ [j])).1 = "" := by
      rw [← ih1 (kc2 ++ [j])]
      exact hres1
    rw [cmpLoop_cons_table lhs rhs j tail S kc hj hbt,
      cmpLoop_cons_table lhs rhs j tail S kc2 hj hbt,
      if_pos hres1, if_pos hres2]
    exact ih2 _
  | case4 lhs rhs S kc j tail hj hbt lt rt res hres ih1 =>
    intro kc2
    have hres1 :
        ¬ (cmpLoop (tableEntries ((lookupEntries lhs j).getD .nil))
          (tableEntries ((lookupEntries rhs j).getD .nil))
          (keysOf (tableEntries ((lookupEntries lhs j).getD .nil)))
          (keysOf (tableEntries ((lookupEntries rhs j).getD .nil)))
          (kc ++ [j])).1 = "" := hres
    have hres2 :
        ¬ (cmpLoop (tableEntries ((lookupEntries lhs j).getD .nil))
          (tableEntries ((lookupEntries rhs j).getD .nil))
          (keysOf (tableEntries ((lookupEntries lhs j).getD .nil)))
          (keysOf (tableEntries ((lookupEntries rhs j).getD .nil)))
          (kc2 ++ [j])).1 = "" := by
      rw [← ih1 (kc2 ++ [j])]
      exact hres1
    rw [cmpLoop_cons_table lhs rhs j tail S kc hj hbt,
      cmpLoop_cons_table lhs rhs j tail S kc2 hj hbt,
      if_neg hres1, if_neg hres2]
    exact ih1 _
  | case5 lhs rhs S kc j tail hj hbt hlua ih =>
    intro kc2
    rw [cmpLoop_cons_scalar lhs rhs j tail S kc hj (Bool.not_eq_true _ ▸ hbt),
      cmpLoop_cons_scalar lhs rhs j tail S kc2 hj (Bool.not_eq_true _ ▸ hbt),
      if_pos hlua, if_pos hlua]
    exact ih _
  | case6 lhs rhs S kc j tail hj hbt hlua =>
    intro kc2
    rw [cmpLoop_cons_scalar lhs rhs j tail S kc hj (Bool.not_eq_true _ ▸ hbt),
      cmpLoop_cons_scalar lhs rhs j tail S kc2 hj (Bool.not_eq_true _ ▸ hbt),
      if_neg hlua, if_neg hlua]
  | case7 lhs rhs S kc j tail hj =>
    intro kc2
    rw [cmpLoop_cons_absent lhs rhs j tail S kc hj,
      cmpLoop_cons_absent lhs rhs j tail S kc2 hj]

/-- A matching key (in the sense of `entryMatches`) advances the loop:
the key is consumed from the rhs key set and the chain is unchanged. -/
theorem cmpLoop_cons_match (lhs rhs : List (LKey × LuaValue)) (j : LKey)
    (tail S kc : List LKey) (hj : j ∈ S)
    (hm : entryMatches lhs rhs j = true) :
    cmpLoop lhs rhs (j :: tail) S kc = cmpLoop lhs rhs tail (S.erase j) kc := by
  unfold entryMatches at hm
  by_cases hbt : (isTable ((lookupEntries lhs j).getD .nil)
      && isTable ((lookupEntries rhs j).getD .nil)) = true
  · rw [if_pos hbt] at hm
    simp only [beq_iff_eq] at hm
    have hres :
        (cmpLoop (tableEntries ((lookupEntries lhs j).getD .nil))
          (tableEntries ((lookupEntries rhs j).getD .nil))
          (keysOf (tableEntries ((lookupEntries lhs j).getD .nil)))
          (keysOf (tableEntries ((lookupEntries rhs j).getD .nil)))
          (kc ++ [j])).1 = "" := by
      rw [cmpLoop_fst_kc _ _ _ _ (kc ++ [j]) []]
      exact hm
    rw [cmpLoop_cons_table lhs rhs j tail S kc hj hbt, if_pos hres,
      cmpLoop_keyChain_frame _ _ _ _ _ hres, List.dropLast_concat]
  · rw [if_neg hbt] at hm
    rw [cmpLoop_cons_scalar lhs rhs j tail S kc hj
      (Bool.not_eq_true _ ▸ hbt), if_pos hm]

/-- A value looked up in a NaN-free table body is NaN-free. -/
theorem nanFree_lookup {es : List (LKey × LuaValue)} (k : LKey)
    (h : nanFreeL es = true) :
    nanFree ((lookupEntries es k).getD .nil) = true := by
  induction es with
  | nil => simp [lookupEntries, nanFree]
  | cons e rest ih =>
    obtain ⟨k2, v2⟩ := e
    simp only [nanFreeL, Bool.and_eq_true] at h
    by_cases hk : k = k2
    · simpa [lookupEntries, hk] using h.1
    · simp only [lookupEntries, if_neg hk]
      exact ih h.2

/-- The body of a table looked up in a NaN-free table body is
NaN-free. -/
theorem nanFreeL_tableEntries {es : List (LKey × LuaValue)} (k : LKey)
    (h : nanFreeL es = true) :
    nanFreeL (tableEntries ((lookupEntries es k).getD .nil)) = true := by
  have h2 := nanFree_lookup k h
  cases hv : (lookupEntries es k).getD .nil <;>
    rw [hv] at h2 <;> simp_all [nanFree, nanFreeL, tableEntries]

/-- Primitive Lua equality is reflexive on non-table values other than
NaN (on NaN it is not: that is the counterexample to unrestricted
reflexivity of the deep comparison). -/
theorem luaRawEq_refl_of_nanFree {v : LuaValue} (ht : isTable v = false)
    (hn : nanFree v = true) : luaRawEq v v = true := by
  cases v <;> simp_all [isTable, nanFree, luaRawEq]

/-- Comparing a NaN-free table against itself along identical key lists
yields no difference. -/
theorem cmpLoop_refl (lhs rhs : List (LKey × LuaValue))
    (pending S kc : List LKey) :
    lhs = rhs → pending = S → nanFreeL lhs = true →
    cmpLoop lhs rhs pending S kc = ("", kc) := by
  induction lhs, rhs, pending, S, kc using cmpLoop.induct with
  | case1 lhs rhs kc =>
    intro _ _ _
    exact cmpLoop_nil_nil lhs rhs kc
  | case2 lhs rhs kc j tail =>
    intro _ h _
    exact absurd h (by simp)
  | case3 lhs rhs S kc j tail hj hbt lt rt res hres ih1 ih1b ih2 =>
    intro hlr hps hnf
    subst hlr
    subst hps
    have hinner : cmpLoop lt rt (keysOf lt) (keysOf rt) (kc ++ [j])
        = ("", kc ++ [j]) := ih1 rfl rfl (nanFreeL_tableEntries j hnf)
    have hres1 : res.1 = "" := congrArg Prod.fst hinner
    have hd : res.2.dropLast = kc := by
      have h2 : res.2 = kc ++ [j] := congrArg Prod.snd hinner
      rw [h2, List.dropLast_concat]
    have hcont := ih2 rfl (List.erase_cons_head j tail).symm hnf
    rw [hd] at hcont
    rw [cmpLoop_cons_table lhs lhs j tail (j :: tail) kc hj hbt, if_pos hres1]
    show cmpLoop lhs lhs tail ((j :: tail).erase j) res.2.dropLast = ("", kc)
    rw [hd]
    exact hcont
  | case4 lhs rhs S kc j tail hj hbt lt rt res hres ih1 =>
    intro hlr hps hnf
    subst hlr
    subst hps
    have hinner := ih1 rfl rfl (nanFreeL_tableEntries j hnf)
    have : ¬ (cmpLoop (tableEntries ((lookupEntries lhs j).getD .nil))
        (tableEntries ((lookupEntries lhs j).getD .nil))
        (keysOf (tableEntries ((lookupEntries lhs j).getD .nil)))
        (keysOf (tableEntries ((lookupEntries lhs j).getD .nil)))
        (kc ++ [j])).1 = "" := hres
    rw [hinner] at this
    exact absurd rfl this
  | case5 lhs rhs S kc j tail hj hbt hlua ih =>
    intro hlr hps hnf
    subst hlr
    subst hps
    rw [cmpLoop_cons_scalar lhs lhs j tail (j :: tail) kc hj
      (Bool.not_eq_true _ ▸ hbt), if_pos hlua]
    exact ih rfl (List.erase_cons_head j tail).symm hnf
  | case6 lhs rhs S kc j tail hj hbt hlua =>
    intro hlr hps hnf
    subst hlr
    apply absurd _ hlua
    apply luaRawEq_refl_of_nanFree
    · have hbt2 : (isTable ((lookupEntries lhs j).getD .nil)
          && isTable ((lookupEntries lhs j).getD .nil)) = false :=
        Bool.not_eq_true _ ▸ hbt
      simpa using hbt2
    · exact nanFree_lookup j hnf
  | case7 lhs rhs S kc j tail hj =>
    intro hlr hps _
    subst hps
    exact absurd (List.mem_cons_self j tail) hj

/-- When an iteration prefix fully matches and then a key of `lhs` is
absent from the remaining rhs key set, the loop stops with the
missing-key message and an unchanged key chain. -/
theorem cmpLoop_missing (lhs rhs : List (LKey × LuaValue)) (p : List LKey)
    (k0 : LKey) (rest S kc : List LKey) :
    (p ++ k0 :: rest).Nodup →
    (∀ k ∈ p, k ∈ S ∧ entryMatches lhs rhs k = true) →
    k0 ∉ S →
    cmpLoop lhs rhs (p ++ k0 :: rest) S kc = (missingKeyMsg k0, kc) := by
  induction p generalizing S kc with
  | nil =>
    intro _ _ hm
    simpa using cmpLoop_cons_absent lhs rhs k0 rest S kc hm
  | cons k p ih =>
    intro hnd hp hm
    have hk := hp k (by simp)
    have hndtail : (p ++ k0 :: rest).Nodup := (List.nodup_cons.mp hnd).2
    have hknot : k ∉ p ++ k0 :: rest := (List.nodup_cons.mp hnd).1
    have hp2 : ∀ k2 ∈ p, k2 ∈ S.erase k ∧ entryMatches lhs rhs k2 = true := by
      intro k2 hk2
      refine ⟨(List.mem_erase_of_ne ?_).mpr (hp k2 (by simp [hk2])).1,
        (hp k2 (by simp [hk2])).2⟩
      intro hkk
      exact hknot (hkk ▸ (by simp [hk2] : k2 ∈ p ++ k0 :: rest))
    have hm2 : k0 ∉ S.erase k := fun hc => hm (List.mem_of_mem_erase hc)
    rw [List.cons_append, cmpLoop_cons_match lhs rhs k _ S kc hk.1 hk.2]
    exact ih (S.erase k) kc hndtail hp2 hm2

/-- When every pending `lhs` key matches and the rhs key set still has
an unmatched member, the loop reports an extra key drawn from the
unmatched remainder, with an unchanged key chain. -/
theorem cmpLoop_extra (lhs rhs : List (LKey × LuaValue))
    (pending S kc : List LKey) :
    pending.Nodup → S.Nodup →
    (∀ k ∈ pending, k ∈ S ∧ entryMatches lhs rhs k = true) →
    (∃ j, j ∈ S ∧ j ∉ pending) →
    ∃ j, j ∈ S ∧ j ∉ pending ∧
      cmpLoop lhs rhs pending S kc = (extraKeyMsg j, kc) := by
  induction pending generalizing S kc with
  | nil =>
    intro _ _ _ hex
    obtain ⟨j, hjS, _⟩ := hex
    cases S with
    | nil => exact absurd hjS (by simp)
    | cons j0 tail =>
      exact ⟨j0, by simp, by simp, cmpLoop_nil_cons lhs rhs j0 tail kc⟩
  | cons k p ih =>
    intro hnd hndS hp hex
    have hk := hp k (by simp)
    have hndtail : p.Nodup := (List.nodup_cons.mp hnd).2
    have hknot : k ∉ p := (List.nodup_cons.mp hnd).1
    have hndS2 : (S.erase k).Nodup := hndS.erase k
    have hp2 : ∀ k2 ∈ p, k2 ∈ S.erase k ∧ entryMatches lhs rhs k2 = true := by
      intro k2 hk2
      refine ⟨(List.mem_erase_of_ne ?_).mpr (hp k2 (by simp [hk2])).1,
        (hp k2 (by simp [hk2])).2⟩
      intro hkk
      exact hknot (hkk ▸ hk2)
    have hex2 : ∃ j, j ∈ S.erase k ∧ j ∉ p := by
      obtain ⟨j, hjS, hjp⟩ := hex
      have hjk : j ≠ k := fun h => hjp (by simp [h])
      exact ⟨j, (List.mem_erase_of_ne hjk).mpr hjS, fun h => hjp (by simp [h])⟩
    obtain ⟨j, hjS, hjp, hres⟩ := ih (S.erase k) kc hndtail hndS2 hp2 hex2
    refine ⟨j, List.mem_of_mem_erase hjS, ?_, ?_⟩
    · intro hc
      rcases List.mem_cons.mp hc with h | h
      · exact absurd ((List.Nodup.mem_erase_iff hndS).mp hjS).1 (by simp [h])
      · exact hjp h
    · rw [cmpLoop_cons_match lhs rhs k p S kc hk.1 hk.2]
      exact hres


/-- The enumerated key list of a table has no duplicates. -/
theorem nodup_keysOf (es : List (LKey × LuaValue)) : (keysOf es).Nodup :=
  List.nodup_dedup _

/-! ## Claim theorems for the deep comparator -/

/-- C6 (counterexample to the claim as stated): a composite value
containing the floating-point NaN is not equal to itself under the deep
comparator, because `lua_compare(..., LUA_OPEQ)` is not reflexive on
NaN — `CompareLuaTables` reports a mismatch for `{ [1] = 0/0 }` against
itself. -/
theorem claim_C6_counterexample :
    (compareLuaTables [(.intK 1, .nan)] [(.intK 1, .nan)] []).1 ≠ "" := by
  have h : compareLuaTables [(.intK 1, .nan)] [(.intK 1, .nan)] []
      = (scalarMismatchMsg .nan .nan, [.intK 1]) := by
    simp [compareLuaTables, cmpLoop, keysOf, lookupEntries, isTable,
      tableEntries, luaRawEq]
  rw [h]
  exact scalarMismatchMsg_ne_empty _ _

/-- C6 (amended): for every composite value A that contains no
floating-point NaN, comparing A with itself via the deep comparator
(`compareLuaTables`) reports no difference and leaves the key chain
unchanged (reflexivity of the deep comparison away from NaN). -/
theorem claim_C6_compare_refl (A : List (LKey × LuaValue)) (kc : List LKey)
    (h : nanFreeL A = true) :
    compareLuaTables A A kc = ("", kc) := by
  unfold compareLuaTables
  exact cmpLoop_refl A A (keysOf A) (keysOf A) kc rfl rfl h

theorem claim_C6_witness :
    nanFreeL [(.intK 1, .table [(.strK "x", .int 5)])] = true
    ∧ compareLuaTables [(.intK 1, .table [(.strK "x", .int 5)])]
        [(.intK 1, .table [(.strK "x", .int 5)])] [.strK "c"]
      = ("", [.strK "c"]) :=
  ⟨by simp [nanFreeL, nanFree],
   claim_C6_compare_refl [(.intK 1, .table [(.strK "x", .int 5)])]
     [.strK "c"] (by simp [nanFreeL, nanFree])⟩

/-- C9: for every pair of tables and every initial keyChain, whenever
the deep comparison returns no difference (empty result string), the
keyChain after the call is exactly the keyChain before the call: every
key pushed during recursion is popped again unless a difference is
reported under it. -/
theorem claim_C9_keyChain_restored (lhs rhs : List (LKey × LuaValue))
    (kc : List LKey) (h : (compareLuaTables lhs rhs kc).1 = "") :
    (compareLuaTables lhs rhs kc).2 = kc :=
  cmpLoop_keyChain_frame lhs rhs (keysOf lhs) (keysOf rhs) kc h

theorem claim_C9_witness :
    ((compareLuaTables [(.intK 1, .table [(.strK "x", .int 5)])]
        [(.intK 1, .table [(.strK "x", .int 5)])] [.strK "kc"]).1 = "")
    ∧ (compareLuaTables [(.intK 1, .table [(.strK "x", .int 5)])]
        [(.intK 1, .table [(.strK "x", .int 5)])] [.strK "kc"]).2
      = [.strK "kc"] := by
  have h : (compareLuaTables [(.intK 1, .table [(.strK "x", .int 5)])]
      [(.intK 1, .table [(.strK "x", .int 5)])] [.strK "kc"]).1 = "" := by
    simp [compareLuaTables, cmpLoop, keysOf, lookupEntries, isTable,
      tableEntries, luaRawEq]
  exact ⟨h, claim_C9_keyChain_restored _ _ _ h⟩

/-- C2: in the deep comparison of two tables, (1) when the iteration
prefix of lhs keys matches and a key of `lhs` is absent from `rhs`, the
comparison reports the "missing key" mismatch for that first divergent
key and stops — the conclusion is independent of everything after that
key, so no further key is compared; (2) when every lhs key matches and
`rhs` still has keys outside the matched set, an "extra key" mismatch
is reported for one remaining key (which one being unspecified). -/
theorem claim_C2_missing_and_extra (lhs rhs : List (LKey × LuaValue))
    (kc : List LKey) :
    (∀ p k0 rest, keysOf lhs = p ++ k0 :: rest →
      (∀ k ∈ p, k ∈ keysOf rhs ∧ entryMatches lhs rhs k = true) →
      k0 ∉ keysOf rhs →
      compareLuaTables lhs rhs kc = (missingKeyMsg k0, kc))
    ∧ ((∀ k ∈ keysOf lhs, k ∈ keysOf rhs ∧ entryMatches lhs rhs k = true) →
      (∃ j, j ∈ keysOf rhs ∧ j ∉ keysOf lhs) →
      ∃ j, j ∈ keysOf rhs ∧ j ∉ keysOf lhs ∧
        compareLuaTables lhs rhs kc = (extraKeyMsg j, kc)) := by
  constructor
  · intro p k0 rest hdec hp hm
    unfold compareLuaTables
    rw [hdec]
    exact cmpLoop_missing lhs rhs p k0 rest (keysOf rhs) kc
      (hdec ▸ nodup_keysOf lhs) hp hm
  · intro hall hex
    unfold compareLuaTables
    exact cmpLoop_extra lhs rhs (keysOf lhs) (keysOf rhs) kc
      (nodup_keysOf lhs) (nodup_keysOf rhs) hall hex

theorem claim_C2_witness :
    compareLuaTables [(.strK "a", .int 1), (.strK "b", .int 2)]
      [(.strK "a", .int 1)] [] = (missingKeyMsg (.strK "b"), [])
    ∧ ∃ j, j ∈ keysOf [(.strK "a", .int 1), (.strK "b", .int 2)]
        ∧ j ∉ keysOf [(.strK "a", .int 1)]
        ∧ compareLuaTables [(.strK "a", .int 1)]
            [(.strK "a", .int 1), (.strK "b", .int 2)] [] = (extraKeyMsg j, []) :=
  ⟨(claim_C2_missing_and_extra
      [(.strK "a", .int 1), (.strK "b", .int 2)] [(.strK "a", .int 1)] []).1
      [.strK "a"] (.strK "b") [] (by decide) (by decide) (by decide),
   (claim_C2_missing_and_extra
      [(.strK "a", .int 1)] [(.strK "a", .int 1), (.strK "b", .int 2)] []).2
      (by decide) ⟨.strK "b", by decide, by decide⟩⟩


/-! ## Test-body execution lemmas -/

/-- Splitting a body at a successfully executed prefix. -/
theorem runBody_append_ok (a b : List LuaStep) (st st1 : TestState)
    (h : runBody st a = (st1, none)) :
    runBody st (a ++ b) = runBody st1 b := by
  induction a generalizing st with
  | nil =>
    simp only [runBody, Prod.mk.injEq] at h
    rw [List.nil_append, h.1]
  | cons s rest ih =>
    rw [List.cons_append]
    simp only [runBody] at h ⊢
    cases hr : runStep st s with
    | ok st2 =>
      rw [hr] at h
      exact ih st2 h
    | err st2 m =>
      rw [hr] at h
      exact absurd (congrArg Prod.snd h) (by simp)

/-- No moonunit API call ever clears the failure flag. -/
theorem runStep_failed_mono (st : TestState) (s : LuaStep)
    (h : st.failed = true) :
    (stepState (runStep st s)).failed = true := by
  cases s <;>
    simp only [runStep] <;>
    (repeat' split) <;>
    simp [stepState, h]

/-- Once the failure flag is set, it stays set for the rest of the
body. -/
theorem runBody_failed_mono (body : List LuaStep) (st : TestState)
    (h : st.failed = true) :
    ((runBody st body).1).failed = true := by
  induction body generalizing st with
  | nil => simpa [runBody]
  | cons s rest ih =>
    simp only [runBody]
    cases hr : runStep st s with
    | ok st2 =>
      have := runStep_failed_mono st s h
      rw [hr] at this
      exact ih st2 this
    | err st2 m =>
      have := runStep_failed_mono st s h
      rw [hr] at this
      simpa using this

/-- A failing `expect_*` call returns control normally, with the
failure flag set. -/
theorem runStep_expect_fails (st : TestState) (s : LuaStep)
    (hex : isExpect s = true) (hf : checkFails st.globals s = true) :
    stepErr (runStep st s) = none
      ∧ (stepState (runStep st s)).failed = true := by
  cases s <;> simp only [isExpect] at hex <;>
    simp only [checkFails] at hf <;>
    simp only [runStep] <;>
    (repeat' split) <;>
    simp_all [stepErr, stepState]

/-- A failing `assert_*` call raises, leaving the runner state
untouched. -/
theorem runStep_assert_fails (st : TestState) (s : LuaStep)
    (has : isAssert s = true) (hf : checkFails st.globals s = true) :
    (stepErr (runStep st s)).isSome = true
      ∧ stepState (runStep st s) = st := by
  cases s <;> simp only [isAssert] at has <;>
    simp only [checkFails] at hf <;>
    simp only [runStep] <;>
    (repeat' split) <;>
    simp_all [stepErr, stepState]

/-! ## Claim theorems for the expectation severities -/

/-- C1: for every test body run via RunTest, a failing `expect_*` call
marks the test failed but returns control to the body, so every
statement after the failing call still executes (the run of
`pre ++ es :: post` literally continues as the run of `post` from the
post-call state); a failing `assert_*` call aborts the remainder of the
body by a non-local exit, so no statement after the failing call
executes (the result does not depend on `post`), and the test is marked
failed in both cases. -/
theorem claim_C1_expect_continues_assert_aborts
    (pre post : List LuaStep) (st1 : TestState) (es as : LuaStep)
    (hpre : runBody initTestState pre = (st1, none))
    (hes : isExpect es = true) (hesf : checkFails st1.globals es = true)
    (has : isAssert as = true) (hasf : checkFails st1.globals as = true) :
    (stepErr (runStep st1 es) = none
      ∧ (stepState (runStep st1 es)).failed = true
      ∧ runBody initTestState (pre ++ es :: post)
          = runBody (stepState (runStep st1 es)) post
      ∧ (execBody (pre ++ es :: post)).1 = false)
    ∧ ((stepErr (runStep st1 as)).isSome = true
      ∧ stepState (runStep st1 as) = st1
      ∧ runBody initTestState (pre ++ as :: post)
          = (st1, stepErr (runStep st1 as))
      ∧ (execBody (pre ++ as :: post)).1 = false) := by
  obtain ⟨heok, hefail⟩ := runStep_expect_fails st1 es hes hesf
  obtain ⟨haerr, hast⟩ := runStep_assert_fails st1 as has hasf
  have hrun_e : runBody initTestState (pre ++ es :: post)
      = runBody (stepState (runStep st1 es)) post := by
    rw [runBody_append_ok pre (es :: post) initTestState st1 hpre]
    simp only [runBody]
    cases hr : runStep st1 es with
    | ok st2 => simp [stepState]
    | err st2 m => rw [hr] at heok; simp [stepErr] at heok
  have hrun_a : runBody initTestState (pre ++ as :: post)
      = (st1, stepErr (runStep st1 as)) := by
    rw [runBody_append_ok pre (as :: post) initTestState st1 hpre]
    simp only [runBody]
    cases hr : runStep st1 as with
    | ok st2 => rw [hr] at haerr; simp [stepErr] at haerr
    | err st2 m =>
      rw [hr] at hast
      simp [stepErr, stepState] at hast ⊢
      exact hast
  refine ⟨⟨heok, hefail, hrun_e, ?_⟩, ⟨haerr, hast, hrun_a, ?_⟩⟩
  · unfold execBody
    rw [hrun_e]
    cases hr : runBody (stepState (runStep st1 es)) post with
    | mk stf e =>
      cases e with
      | none =>
        have := runBody_failed_mono post (stepState (runStep st1 es)) hefail
        rw [hr] at this
        simp at this
        simp [this]
      | some m => simp
  · unfold execBody
    rw [hrun_a]
    cases he : stepErr (runStep st1 as) with
    | none => rw [he] at haerr; simp [Option.isSome] at haerr
    | some m => simp

theorem claim_C1_witness :
    (stepErr (runStep initTestState c1WitnessExpectStep) = none
      ∧ (stepState (runStep initTestState c1WitnessExpectStep)).failed = true
      ∧ runBody initTestState ([] ++ c1WitnessExpectStep :: c1WitnessPost)
          = runBody (stepState (runStep initTestState c1WitnessExpectStep))
              c1WitnessPost
      ∧ (execBody ([] ++ c1WitnessExpectStep :: c1WitnessPost)).1 = false)
    ∧ ((stepErr (runStep initTestState c1WitnessAssertStep)).isSome = true
      ∧ stepState (runStep initTestState c1WitnessAssertStep) = initTestState
      ∧ runBody initTestState ([] ++ c1WitnessAssertStep :: c1WitnessPost)
          = (initTestState,
              stepErr (runStep initTestState c1WitnessAssertStep))
      ∧ (execBody ([] ++ c1WitnessAssertStep :: c1WitnessPost)).1 = false) :=
  claim_C1_expect_continues_assert_aborts [] c1WitnessPost initTestState
    c1WitnessExpectStep c1WitnessAssertStep rfl rfl (by decide) rfl (by decide)

/-! ## Claim theorems for lookup, report, and isolation -/

/-- C5: for every suite name or test name not present in the catalog,
RunTest returns failed (false) together with exactly the corresponding
not-found diagnostic delivered through the error message delegate (the
modelled `runTestSt` is total, so no exception escapes the call). -/
theorem claim_C5_not_found (rs : Bool) (cat : ExecCatalog) (s t : String) :
    (lookupA cat s = none →
      (runTestSt rs cat s t).1
        = (false, ["ERROR: No test suite \'" ++ s ++ "\' found"]))
    ∧ (∀ suite, lookupA cat s = some suite → lookupA suite t = none →
      (runTestSt rs cat s t).1
        = (false, ["ERROR: No test \'" ++ t ++ "\' found in test suite \'"
            ++ s ++ "\'"])) := by
  constructor
  · intro h
    simp [runTestSt, h]
  · intro suite h1 h2
    simp [runTestSt, h1, h2]

theorem claim_C5_witness :
    ((runTestSt false [("s", [])] "zzz" "t").1
      = (false, ["ERROR: No test suite \'" ++ "zzz" ++ "\' found"]))
    ∧ ((runTestSt false [("s", [])] "s" "t").1
      = (false, ["ERROR: No test \'" ++ "t" ++ "\' found in test suite \'"
          ++ "s" ++ "\'"])) :=
  ⟨(claim_C5_not_found false [("s", [])] "zzz" "t").1 (by rfl),
   (claim_C5_not_found false [("s", [])] "s" "t").2 [] (by rfl) (by rfl)⟩

/-- C10: for every suite name not present in the catalog, GetTestNames
returns the empty list rather than signalling an error, and the catalog
is left unmodified by the query. -/
theorem claim_C10_getTestNames_absent (cat : Catalog) (s : String)
    (h : lookupA cat s = none) :
    getTestNames cat s = ([], cat) := by
  simp [getTestNames, h]

theorem claim_C10_witness :
    getTestNames [("a", [])] "b" = ([], [("a", [])]) :=
  claim_C10_getTestNames_absent [("a", [])] "b" (by rfl)

/-- C4: for every catalog state, the report produced by GetReport
satisfies: each suite element\'s test count equals the number of test
elements it contains, and the root element\'s total test count equals
the sum of the suite counts; the counts are all derived from the same
catalog traversal, never independently settable. -/
theorem claim_C4_report_counts (cat : Catalog) :
    ((getReport cat).suites.all
        (fun su => su.tests == su.cases.length)) = true
    ∧ (getReport cat).tests
        = ((getReport cat).suites.map (fun su => su.tests)).sum := by
  constructor
  · rw [List.all_eq_true]
    intro x hx
    obtain ⟨su, hsu, rfl⟩ := List.mem_map.mp hx
    simp
  · simp [getReport, List.map_map]
    rfl

/-- The pass/fail outcome and the diagnostics of one RunTest call do
not depend on the persistent `currentTestFailed` flag left behind by
earlier calls (it is reset before the body runs). -/
theorem runTestSt_fst_indep (rs rs2 : Bool) (cat : ExecCatalog)
    (s t : String) :
    (runTestSt rs cat s t).1 = (runTestSt rs2 cat s t).1 := by
  rcases h1 : lookupA cat s with _ | suite
  · simp [runTestSt, h1]
  · rcases h2 : lookupA suite t with _ | test
    · simp [runTestSt, h1, h2]
    · rcases h3 : test.loadError with _ | m
      · rcases h4 : runBody initTestState test.body with ⟨stf, e⟩
        rcases e with _ | m <;> simp [runTestSt, h1, h2, h3, h4]
      · simp [runTestSt, h1, h2, h3]

/-- C8: isolation across sequential RunTest calls.  The only runner
state that survives a call is the `currentTestFailed` flag (threaded
through `runTestSt`); a second call\'s observable result is the same
whether or not any first call happened, and a body that reads any
global at the start of a fresh interpreter sees nil — so a global
variable set by the script during one call is never observable by the
script during another call. -/
theorem claim_C8_isolation (rs rs2 : Bool) (cat : ExecCatalog)
    (s1 t1 s2 t2 : String) (g : String) (rest : List LuaStep) :
    ((runTestSt ((runTestSt rs cat s1 t1).2) cat s2 t2).1
       = (runTestSt rs2 cat s2 t2).1)
    ∧ runBody initTestState
        (.expectEq (.global g) (.const .nil) :: rest)
      = runBody initTestState rest := by
  refine ⟨runTestSt_fst_indep _ _ _ _ _, ?_⟩
  simp [runBody, runStep, evalExpr, initTestState, lookupA, isTable, luaRawEq]

/-- C7: a test whose body calls expect_eq(25, 24) yields passed=false
and exactly one diagnostic containing both "25" and "24" (the second
diagnostic is the captured stack trace, which contains neither). -/
theorem claim_C7_expect_eq_scenario :
    ((runTestSt false
        [("math", [("t", ⟨"math.lua", none,
          [.expectEq (.const (.int 25)) (.const (.int 24))]⟩)])]
        "math" "t").1.1 = false)
    ∧ ((runTestSt false
        [("math", [("t", ⟨"math.lua", none,
          [.expectEq (.const (.int 25)) (.const (.int 24))]⟩)])]
        "math" "t").1.2.countP
          (fun d => containsStr d "25" && containsStr d "24") = 1) := by
  constructor
  · rfl
  · rfl

/-! ## Association-map lemmas (for the catalog and the registry) -/

theorem lookupA_setA_self {α β : Type} [DecidableEq α]
    (m : List (α × β)) (k : α) (v : β) :
    lookupA (setA m k v) k = some v := by
  induction m with
  | nil => simp [setA, lookupA]
  | cons e rest ih =>
    obtain ⟨k2, v2⟩ := e
    by_cases hk : k = k2
    · simp [setA, hk, lookupA]
    · simp [setA, hk, lookupA, ih]

theorem lookupA_setA_ne {α β : Type} [DecidableEq α]
    (m : List (α × β)) (k k2 : α) (v : β) (h : k2 ≠ k) :
    lookupA (setA m k v) k2 = lookupA m k2 := by
  induction m with
  | nil => simp [setA, lookupA, h]
  | cons e rest ih =>
    obtain ⟨k3, v3⟩ := e
    by_cases hk : k = k3
    · subst hk
      simp [setA, lookupA, h]
    · by_cases h2 : k2 = k3
      · simp [setA, hk, lookupA, h2]
      · simp [setA, hk, lookupA, h2, ih]

theorem mem_keys_setA {α β : Type} [DecidableEq α]
    (m : List (α × β)) (k a : α) (v : β) :
    a ∈ (setA m k v).map Prod.fst ↔ a = k ∨ a ∈ m.map Prod.fst := by
  induction m with
  | nil => simp [setA]
  | cons e rest ih =>
    obtain ⟨k2, v2⟩ := e
    by_cases hk : k = k2
    · subst hk
      simp [setA]
    · simp [setA, hk, ih]
      tauto

theorem nodupKeys_setA {α β : Type} [DecidableEq α]
    (m : List (α × β)) (k : α) (v : β)
    (h : (m.map Prod.fst).Nodup) : ((setA m k v).map Prod.fst).Nodup := by
  induction m with
  | nil => simp [setA]
  | cons e rest ih =>
    obtain ⟨k2, v2⟩ := e
    simp only [List.map_cons, List.nodup_cons] at h
    by_cases hk : k = k2
    · subst hk
      have hset : setA ((k, v2) :: rest) k v = (k, v) :: rest := by
        simp [setA]
      rw [hset, List.map_cons, List.nodup_cons]
      exact h
    · have hset : setA ((k2, v2) :: rest) k v = (k2, v2) :: setA rest k v := by
        simp [setA, hk]
      rw [hset, List.map_cons, List.nodup_cons]
      refine ⟨?_, ih h.2⟩
      intro hc
      rcases (mem_keys_setA rest k k2 v).mp hc with h1 | h1
      · exact hk h1.symm
      · exact h.1 h1

theorem mem_setA {α β : Type} [DecidableEq α]
    {m : List (α × β)} {k : α} {v : β} {e : α × β}
    (h : e ∈ setA m k v) : e = (k, v) ∨ e ∈ m := by
  induction m with
  | nil => simpa [setA] using h
  | cons e2 rest ih =>
    obtain ⟨k2, v2⟩ := e2
    by_cases hk : k = k2
    · subst hk
      rcases (by simpa [setA] using h : e = (k, v) ∨ e ∈ rest) with h1 | h1
      · exact Or.inl h1
      · exact Or.inr (List.mem_cons_of_mem _ h1)
    · rcases (by simpa [setA, hk] using h : e = (k2, v2) ∨ e ∈ setA rest k v)
        with h1 | h1
      · exact Or.inr (by simp [h1])
      · rcases ih h1 with h2 | h2
        · exact Or.inl h2
        · exact Or.inr (List.mem_cons_of_mem _ h2)

theorem lookupA_mem {α β : Type} [DecidableEq α]
    {m : List (α × β)} {k : α} {v : β}
    (h : lookupA m k = some v) : (k, v) ∈ m := by
  induction m with
  | nil => simp [lookupA] at h
  | cons e rest ih =>
    obtain ⟨k2, v2⟩ := e
    by_cases hk : k = k2
    · subst hk
      have : v2 = v := by simpa [lookupA] using h
      simp [this]
    · exact List.mem_cons_of_mem _ (ih (by simpa [lookupA, hk] using h))

theorem countP_eq_one_of_nodupKeys {β : Type}
    (m : List (String × β)) (t : String)
    (hnd : (m.map Prod.fst).Nodup) {v : β} (h : lookupA m t = some v) :
    m.countP (fun e => e.1 == t) = 1 := by
  induction m with
  | nil => simp [lookupA] at h
  | cons e rest ih =>
    obtain ⟨k2, v2⟩ := e
    simp only [List.map_cons, List.nodup_cons] at hnd
    by_cases hk : t = k2
    · subst hk
      have hz : rest.countP (fun e => e.1 == t) = 0 := by
        rw [List.countP_eq_zero]
        intro a ha hpa
        simp only [beq_iff_eq] at hpa
        exact hnd.1 (hpa ▸ List.mem_map_of_mem Prod.fst ha)
      rw [List.countP_cons, hz]
      simp
    · rw [List.countP_cons]
      have hp : ((k2, v2).1 == t) = false := by
        simp only [beq_eq_false_iff_ne, ne_eq]
        exact fun hc => hk hc.symm
      rw [hp]
      have := ih hnd.2 (by simpa [lookupA, hk] using h)
      simpa using this

/-! ## Two-level map lemmas -/

theorem lookup2_set2 {β : Type} (m : List (String × List (String × β)))
    (k1 k2 : String) (v : β) (s t : String) :
    lookup2 (set2 m k1 k2 v) s t
      = if k1 = s ∧ k2 = t then some v else lookup2 m s t := by
  unfold lookup2 set2
  by_cases hs : k1 = s
  · subst hs
    rw [lookupA_setA_self, Option.getD_some]
    by_cases ht : k2 = t
    · subst ht
      rw [lookupA_setA_self]
      simp
    · rw [lookupA_setA_ne _ _ _ _ (fun hc => ht hc.symm)]
      simp [ht]
  · rw [lookupA_setA_ne _ _ _ _ (fun hc => hs hc.symm)]
    simp [hs]

theorem mapWF_set2 {β : Type} {m : List (String × List (String × β))}
    (k1 k2 : String) (v : β) (h : MapWF m) : MapWF (set2 m k1 k2 v) := by
  obtain ⟨h1, h2⟩ := h
  constructor
  · exact nodupKeys_setA m k1 _ h1
  · intro su hsu
    rcases mem_setA hsu with h3 | h3
    · subst h3
      apply nodupKeys_setA
      cases hr : lookupA m k1 with
      | none => simp [Option.getD]
      | some su0 =>
        simp only [Option.getD_some]
        exact h2 (k1, su0) (lookupA_mem hr)
    · exact h2 su h3

theorem mapWF_foldl {β : Type} (f : RegEvent → β) (entries : List RegEvent)
    (c : List (String × List (String × β))) (h : MapWF c) :
    MapWF (entries.foldl (fun c e => set2 c e.1 e.2.1 (f e)) c) := by
  induction entries generalizing c with
  | nil => simpa
  | cons e rest ih =>
    rw [List.foldl_cons]
    exact ih _ (mapWF_set2 e.1 e.2.1 (f e) h)

theorem lookup2_foldl_notmem {β : Type} (f : RegEvent → β)
    (entries : List RegEvent) (c : List (String × List (String × β)))
    (s t : String)
    (h : ∀ e ∈ entries, ¬(e.1 = s ∧ e.2.1 = t)) :
    lookup2 (entries.foldl (fun c e => set2 c e.1 e.2.1 (f e)) c) s t
      = lookup2 c s t := by
  induction entries generalizing c with
  | nil => rfl
  | cons e rest ih =>
    rw [List.foldl_cons, ih _ (fun e2 he2 => h e2 (by simp [he2])),
      lookup2_set2, if_neg (h e (by simp))]

theorem lookup2_foldl_mem {β : Type} (f : RegEvent → β)
    (entries : List RegEvent) (c : List (String × List (String × β)))
    {s t : String} {ln : Nat}
    (hnd : (entries.map (fun e => (e.1, e.2.1))).Nodup)
    (hmem : (s, t, ln) ∈ entries) :
    lookup2 (entries.foldl (fun c e => set2 c e.1 e.2.1 (f e)) c) s t
      = some (f (s, t, ln)) := by
  induction entries generalizing c with
  | nil => simp at hmem
  | cons e rest ih =>
    simp only [List.map_cons, List.nodup_cons] at hnd
    rcases List.mem_cons.mp hmem with h1 | h1
    · subst h1
      rw [List.foldl_cons,
        lookup2_foldl_notmem f rest _ s t ?_, lookup2_set2, if_pos ⟨rfl, rfl⟩]
      intro e2 he2 hc
      apply hnd.1
      have : (fun e : RegEvent => (e.1, e.2.1)) e2 = (s, t) := by
        simp [hc.1, hc.2]
      exact this ▸ List.mem_map_of_mem _ he2
    · rw [List.foldl_cons]
      exact ih _ hnd.2 h1

/-! ## Registry lemmas -/

theorem lookupReg_insertReg (reg : Registry) (e : RegEvent) (s t : String) :
    lookupReg (insertReg reg e) s t
      = if e.1 = s ∧ e.2.1 = t then some e.2.2 else lookupReg reg s t := by
  unfold lookupReg insertReg
  exact lookup2_set2 reg e.1 e.2.1 e.2.2 s t

theorem lookupReg_foldl_of_lastRegLine_none (events : List RegEvent)
    (reg : Registry) (s t : String)
    (h : lastRegLine s t events = none) :
    lookupReg (events.foldl insertReg reg) s t = lookupReg reg s t := by
  induction events generalizing reg with
  | nil => rfl
  | cons e rest ih =>
    simp only [lastRegLine] at h
    cases hr : lastRegLine s t rest with
    | some ln => rw [hr] at h; simp at h
    | none =>
      rw [hr] at h
      simp only at h
      have hcond : ¬(e.1 = s ∧ e.2.1 = t) := by
        intro hc
        rw [if_pos hc] at h
        exact absurd h (by simp)
      rw [List.foldl_cons, ih _ hr, lookupReg_insertReg, if_neg hcond]

theorem lookupReg_foldl_of_lastRegLine_some (events : List RegEvent)
    (reg : Registry) (s t : String) (ln : Nat)
    (h : lastRegLine s t events = some ln) :
    lookupReg (events.foldl insertReg reg) s t = some ln := by
  induction events generalizing reg with
  | nil => simp [lastRegLine] at h
  | cons e rest ih =>
    simp only [lastRegLine] at h
    cases hr : lastRegLine s t rest with
    | some ln2 =>
      rw [hr] at h
      simp only [Option.some.injEq] at h
      subst h
      rw [List.foldl_cons]
      exact ih _ hr
    | none =>
      rw [hr] at h
      simp only at h
      by_cases hcond : e.1 = s ∧ e.2.1 = t
      · rw [if_pos hcond] at h
        simp only [Option.some.injEq] at h
        rw [List.foldl_cons,
          lookupReg_foldl_of_lastRegLine_none rest _ s t hr,
          lookupReg_insertReg, if_pos hcond, h]
      · rw [if_neg hcond] at h
        exact absurd h (by simp)

theorem fst_mem_of_mem_regEntries {reg : Registry} {e : RegEvent}
    (h : e ∈ regEntries reg) : e.1 ∈ reg.map Prod.fst := by
  unfold regEntries at h
  obtain ⟨su, hsu, he⟩ := List.mem_flatMap.mp h
  obtain ⟨t2, _, rfl⟩ := List.mem_map.mp he
  exact List.mem_map_of_mem Prod.fst hsu

theorem pairsNodup_regEntries (reg : Registry) (h : MapWF reg) :
    ((regEntries reg).map (fun e => (e.1, e.2.1))).Nodup := by
  induction reg with
  | nil => simp [regEntries]
  | cons su rest ih =>
    obtain ⟨sname, tests⟩ := su
    obtain ⟨h1, h2⟩ := h
    simp only [List.map_cons, List.nodup_cons] at h1
    have hwfrest : MapWF rest :=
      ⟨h1.2, fun su2 hsu2 => h2 su2 (List.mem_cons_of_mem _ hsu2)⟩
    have htests : (tests.map Prod.fst).Nodup := h2 (sname, tests) (by simp)
    unfold regEntries
    rw [List.flatMap_cons, List.map_append]
    apply List.Nodup.append
    · rw [List.map_map]
      have : ((fun e : RegEvent => (e.1, e.2.1)) ∘
          (fun t : String × Nat => (sname, t.1, t.2)))
          = (fun x : String × Nat => (sname, x.1)) := rfl
      rw [this]
      have : (fun x : String × Nat => (sname, x.1))
          = (fun k : String => (sname, k)) ∘ Prod.fst := rfl
      rw [this, ← List.map_map]
      apply List.Nodup.map _ htests
      intro a b hab
      simpa using hab
    · exact ih hwfrest
    · intro p hp1 hp2
      rw [List.map_map] at hp1
      obtain ⟨x, _, rfl⟩ := List.mem_map.mp hp1
      obtain ⟨e2, he2, hpe⟩ := List.mem_map.mp hp2
      apply h1.1
      have h4 : e2.1 = sname := by
        have h5 := congrArg Prod.fst hpe
        simpa using h5
      exact h4 ▸ fst_mem_of_mem_regEntries he2

theorem mem_regEntries_of_lookupReg {reg : Registry} {s t : String} {ln : Nat}
    (h : lookupReg reg s t = some ln) : (s, t, ln) ∈ regEntries reg := by
  unfold lookupReg lookup2 at h
  cases hs : lookupA reg s with
  | none => rw [hs] at h; simp [lookupA] at h
  | some su =>
    rw [hs, Option.getD_some] at h
    have h1 : (s, su) ∈ reg := lookupA_mem hs
    have h2 : (t, ln) ∈ su := lookupA_mem h
    unfold regEntries
    rw [List.mem_flatMap]
    exact ⟨(s, su), h1, by
      rw [List.mem_map]
      exact ⟨(t, ln), h2, rfl⟩⟩

/-! ## Claim theorem for last-registration-wins -/

/-- C3: for a (suiteName, testName) pair registered more than once
within one discovery pass, the catalog produced by `FindTests` retains
exactly one `Test` entry for that pair, and its source-location
metadata is that of the last registration (the file of the pass and the
definition line of the last registered function). -/
theorem claim_C3_last_registration_wins (events : List RegEvent)
    (file path s t : String) (ln : Nat)
    (hmulti : 2 ≤ events.countP (fun e => e.1 == s && e.2.1 == t))
    (hlast : lastRegLine s t events = some ln) :
    lookupCat (findTests [] (runDiscovery events) file path) s t
      = some ⟨file, path, ln⟩
    ∧ ((lookupA (findTests [] (runDiscovery events) file path) s).getD
        []).countP (fun e => e.1 == t) = 1 := by
  have hwfreg : MapWF (runDiscovery events) :=
    mapWF_foldl (fun e => e.2.2) events [] ⟨by simp, by simp⟩
  have hreg : lookupReg (runDiscovery events) s t = some ln :=
    lookupReg_foldl_of_lastRegLine_some events [] s t ln hlast
  have hmem : (s, t, ln) ∈ regEntries (runDiscovery events) :=
    mem_regEntries_of_lookupReg hreg
  have hpairs := pairsNodup_regEntries _ hwfreg
  have hfind : lookupCat (findTests [] (runDiscovery events) file path) s t
      = some ⟨file, path, ln⟩ := by
    unfold lookupCat findTests catInsert
    exact lookup2_foldl_mem (fun e => Test.mk file path e.2.2) _ [] hpairs hmem
  refine ⟨hfind, ?_⟩
  have hcwf : MapWF (findTests [] (runDiscovery events) file path) := by
    unfold findTests catInsert
    exact mapWF_foldl _ _ [] ⟨by simp, by simp⟩
  unfold lookupCat lookup2 at hfind
  cases hs : lookupA (findTests [] (runDiscovery events) file path) s with
  | none => rw [hs] at hfind; simp [lookupA] at hfind
  | some suite =>
    rw [hs, Option.getD_some] at hfind
    rw [Option.getD_some]
    have hndsu : (suite.map Prod.fst).Nodup :=
      hcwf.2 (s, suite) (lookupA_mem hs)
    exact countP_eq_one_of_nodupKeys suite t hndsu hfind

theorem claim_C3_witness :
    lookupCat (findTests []
        (runDiscovery [("s", "t", 3), ("s", "t", 7)]) "f" "p") "s" "t"
      = some ⟨"f", "p", 7⟩
    ∧ ((lookupA (findTests []
        (runDiscovery [("s", "t", 3), ("s", "t", 7)]) "f" "p") "s").getD
        []).countP (fun e => e.1 == "t") = 1 :=
  claim_C3_last_registration_wins [("s", "t", 3), ("s", "t", 7)]
    "f" "p" "s" "t" 7 (by rfl) (by rfl)

end MoonUnit
